import Mathlib

/-!
Shallow embedding of the tcp-vote concurrent voting server
(`internal/server/server.go`).  Go maps are modelled as association
lists with first-match lookup; `time.Now()` is an explicit `now : Nat`
parameter; network writes are recorded as explicit send events; the
`go s.endVoting()` launched on an expired-deadline rejection is
recorded as a `triggersEnd` flag, to be applied as a separate step
after the rejecting call returns (mirroring that it runs outside the
rejection's critical section).
-/

namespace TcpVote

/-- The voting phase enum `VotingState` from server.go: NOT_STARTED / ACTIVE / ENDED. -/
inductive VotingState where
  | notStarted
  | active
  | ended
deriving Repr, DecidableEq

/-- Rank of a phase along the forward direction NotStarted → Active → Ended. -/
def VotingState.rank : VotingState → Nat
  | .notStarted => 0
  | .active => 1
  | .ended => 2

/-- Go map read `m[k]` returning `none` for a missing key (nil / zero value). -/
def alGet {α : Type} : List (String × α) → String → Option α
  | [], _ => none
  | (k', v') :: rest, k => if k' = k then some v' else alGet rest k

/-- Go map write `m[k] = v`: replace the entry if the key is present, else add it. -/
def alSet {α : Type} : List (String × α) → String → α → List (String × α)
  | [], k, v => [(k, v)]
  | (k', v') :: rest, k, v =>
      if k' = k then (k, v) :: rest else (k', v') :: alSet rest k v

/-- Go `delete(m, k)`. -/
def alDel {α : Type} : List (String × α) → String → List (String × α)
  | [], _ => []
  | (k', v') :: rest, k => if k' = k then alDel rest k else (k', v') :: alDel rest k

/-- Counter read: a missing key reads as the zero value 0 (Go map of int). -/
def alGet0 (m : List (String × Nat)) (k : String) : Nat :=
  (alGet m k).getD 0

/-- Go `m[option]++` on a map of counters. -/
def bump (m : List (String × Nat)) (k : String) : List (String × Nat) :=
  alSet m k (alGet0 m k + 1)

/-- The key list of an association list. -/
def alKeys {α : Type} (m : List (String × α)) : List String :=
  m.map Prod.fst

/-- The snapshot copy loop of processVote:
`snapshot := make(map[string]int); for k, v := range s.voteCounts { snapshot[k] = v }`. -/
def copyCounts (m : List (String × Nat)) : List (String × Nat) :=
  m.foldl (fun acc kv => alSet acc kv.1 kv.2) []

/-- The reply written back to the submitting client's connection by processVote;
one constructor per `conn.Write` response path in the code. -/
inductive Reply where
  | errNotStarted
  | errEnded
  | errExpired
  | errDuplicate
  | errInvalid
  | ok (option : String)
deriving Repr, DecidableEq

/-- Spec-level error taxonomy for vote submission (§7 of the design). -/
inductive Reason where
  | roundNotActive
  | roundExpired
  | duplicateVote
  | invalidOption
  | accepted
deriving Repr, DecidableEq

/-- Classification of each concrete reply under the spec taxonomy:
"Votacao nao iniciada" and "Votacao encerrada" are both RoundNotActive. -/
def Reply.reason : Reply → Reason
  | .errNotStarted => .roundNotActive
  | .errEnded => .roundNotActive
  | .errExpired => .roundExpired
  | .errDuplicate => .duplicateVote
  | .errInvalid => .invalidOption
  | .ok _ => .accepted

/-- Broadcast payloads written to client connections outside the reply path:
per-vote tally updates and the two round-lifecycle announcements. -/
inductive BMsg where
  | update (tally : List (String × Nat))
  | iniciada (durationSeconds : Nat) (options : List String)
  | encerrada (tally : List (String × Nat))
deriving Repr, DecidableEq

/-- The server state: the fields of `Server` in server.go that the claims
concern.  Connections (`net.Conn`) are opaque handles modelled as `Nat`;
`broadcastChan` is the FIFO backlog of queued tally snapshots. -/
structure Server where
  clients : List (String × Nat)
  votes : List (String × String)
  voteCounts : List (String × Nat)
  options : List String
  useAsyncBroadcast : Bool
  broadcastChan : List (List (String × Nat))
  votingState : VotingState
  votingDeadline : Nat
deriving Repr, DecidableEq

/-- Constructor `NewServer(async, optionsList)`: empty maps, counters initialised to 0 for
every configured option, phase NOT_STARTED. -/
def NewServer (async : Bool) (optionsList : List String) : Server :=
  { clients := []
    votes := []
    voteCounts := optionsList.foldl (fun acc op => alSet acc op 0) []
    options := optionsList
    useAsyncBroadcast := async
    broadcastChan := []
    votingState := .notStarted
    votingDeadline := 0 }

/-- The registration critical section of `handleClient`: reject a duplicate
identity, otherwise store the connection.  Returns the new state and whether
registration succeeded. -/
def registerClient (s : Server) (id : String) (conn : Nat) : Server × Bool :=
  if (alGet s.clients id).isSome then (s, false)
  else ({ s with clients := alSet s.clients id conn }, true)

/-- The disconnect cleanup of `handleClient`: `delete(s.clients, id)`. -/
def unregisterClient (s : Server) (id : String) : Server :=
  { s with clients := alDel s.clients id }

/-- Strategy A fan-out `broadcastLocked`: under the main mutex, send one UPDATE rendering of the
live tally to every registered client that has a vote record. -/
def broadcastLocked (s : Server) : List ((String × Nat) × BMsg) :=
  (s.clients.filter fun c => (alGet s.votes c.1).isSome).map
    fun c => (c, BMsg.update s.voteCounts)

/-- The per-snapshot fan-out of `broadcastWorker`: send the dequeued update to
every registered client that has a vote record. -/
def broadcastWorkerSends (s : Server) (update : List (String × Nat)) :
    List ((String × Nat) × BMsg) :=
  (s.clients.filter fun c => (alGet s.votes c.1).isSome).map
    fun c => (c, BMsg.update update)

/-- Lock/send events, used to model where network writes happen relative to
the mutex `s.mu` shared with vote processing. -/
inductive Ev where
  | lockAcquire
  | lockRelease
  | send (client : String × Nat) (msg : BMsg)
deriving Repr, DecidableEq

/-- Whether an event is a network send. -/
def Ev.isSend : Ev → Bool
  | .send _ _ => true
  | _ => false

/-- Event trace of one iteration of `broadcastWorker` for a dequeued update:
the code takes `s.mu.Lock()`, performs every `conn.Write` inside the loop,
then `s.mu.Unlock()`. -/
def broadcastWorkerTrace (s : Server) (update : List (String × Nat)) : List Ev :=
  Ev.lockAcquire ::
    ((broadcastWorkerSends s update).map fun p => Ev.send p.1 p.2) ++ [Ev.lockRelease]

/-- Annotate each event of a trace with the lock depth at which it executes,
starting from depth `d`. -/
def withDepth : Nat → List Ev → List (Ev × Nat)
  | _, [] => []
  | d, Ev.lockAcquire :: r => (Ev.lockAcquire, d) :: withDepth (d + 1) r
  | d, Ev.lockRelease :: r => (Ev.lockRelease, d - 1) :: withDepth (d - 1) r
  | d, e :: r => (e, d) :: withDepth d r

/-- The property claimed of Strategy B: every per-client send in the trace
executes at lock depth 0, i.e. outside any lock shared with vote processing. -/
def sendsOutsideLock (tr : List Ev) : Prop :=
  ∀ p ∈ withDepth 0 tr, p.1.isSend = true → p.2 = 0

instance (tr : List Ev) : Decidable (sendsOutsideLock tr) := by
  unfold sendsOutsideLock
  infer_instance

/-- One iteration of the worker loop consuming the head of the channel and
fanning it out. -/
def broadcastWorkerStep (s : Server) : Server × List ((String × Nat) × BMsg) :=
  match s.broadcastChan with
  | [] => (s, [])
  | u :: rest =>
      ({ s with broadcastChan := rest },
        broadcastWorkerSends { s with broadcastChan := rest } u)

/-- The full effect of one `processVote` call: the post state, the reply and
the connection it is written to (`none` models a nil `net.Conn`), whether a
deferred `go s.endVoting()` was launched, and the synchronous-mode broadcast
writes performed while still holding the mutex. -/
structure VoteStep where
  server : Server
  replyTo : Option Nat
  reply : Reply
  triggersEnd : Bool
  sends : List ((String × Nat) × BMsg)
deriving Repr, DecidableEq

/-- The operation `processVote(id, option)` at time `now`, translated branch by branch from
server.go: unconditional connection lookup, the five validations in source
order, then the mutation, confirmation, and either the snapshot hand-off to
the channel (async mode) or `broadcastLocked` (sync mode). -/
def processVote (s : Server) (now : Nat) (id option : String) : VoteStep :=
  let conn := alGet s.clients id
  if s.votingState = VotingState.notStarted then
    { server := s, replyTo := conn, reply := .errNotStarted, triggersEnd := false, sends := [] }
  else if s.votingState = VotingState.ended then
    { server := s, replyTo := conn, reply := .errEnded, triggersEnd := false, sends := [] }
  else if s.votingDeadline < now then
    { server := s, replyTo := conn, reply := .errExpired, triggersEnd := true, sends := [] }
  else if (alGet s.votes id).isSome then
    { server := s, replyTo := conn, reply := .errDuplicate, triggersEnd := false, sends := [] }
  else if option ∈ s.options then
    let s' := { s with votes := alSet s.votes id option
                       voteCounts := bump s.voteCounts option }
    if s.useAsyncBroadcast then
      { server := { s' with broadcastChan := s'.broadcastChan ++ [copyCounts s'.voteCounts] }
        replyTo := conn, reply := .ok option, triggersEnd := false, sends := [] }
    else
      { server := s', replyTo := conn, reply := .ok option, triggersEnd := false
        sends := broadcastLocked s' }
  else
    { server := s, replyTo := conn, reply := .errInvalid, triggersEnd := false, sends := [] }

/-- The effect of a round transition: the post state, the announcement writes,
whether the transition fired (`false` = reported no-op), and whether an end
timer was scheduled. -/
structure RoundStep where
  server : Server
  announced : List ((String × Nat) × BMsg)
  fired : Bool
  timerScheduled : Bool
deriving Repr, DecidableEq

/-- Round start `StartVoting(durationSeconds)` at time `now`: no-op unless the phase is
NOT_STARTED; otherwise set ACTIVE, set the deadline, announce to every
registered client and schedule the auto-end timer. -/
def StartVoting (s : Server) (now durationSeconds : Nat) : RoundStep :=
  if s.votingState ≠ VotingState.notStarted then
    { server := s, announced := [], fired := false, timerScheduled := false }
  else
    let s' := { s with votingState := VotingState.active
                       votingDeadline := now + durationSeconds }
    { server := s'
      announced := s'.clients.map fun c => (c, BMsg.iniciada durationSeconds s.options)
      fired := true
      timerScheduled := true }

/-- Round end `endVoting()`: no-op unless the phase is ACTIVE; otherwise set ENDED and
announce the final tally to every registered client. -/
def endVoting (s : Server) : RoundStep :=
  if s.votingState ≠ VotingState.active then
    { server := s, announced := [], fired := false, timerScheduled := false }
  else
    let s' := { s with votingState := VotingState.ended }
    { server := s'
      announced := s'.clients.map fun c => (c, BMsg.encerrada s.voteCounts)
      fired := true
      timerScheduled := false }

/-- Modelled from the spec: the §4.2 RecordVote precondition order, "first
failure wins" — (1) round Active and not past deadline, else RoundNotActive
(phase NotStarted or Ended) or RoundExpired (deadline elapsed); (2) no
existing VoteRecord, else DuplicateVote; (3) option in the configured set,
else InvalidOption.  Used only as the specification side of the refinement
theorem for the code's `processVote`. -/
def recordVoteSpecReason (s : Server) (now : Nat) (id option : String) : Reason :=
  if s.votingState ≠ VotingState.active then .roundNotActive
  else if s.votingDeadline < now then .roundExpired
  else if (alGet s.votes id).isSome then .duplicateVote
  else if option ∉ s.options then .invalidOption
  else .accepted

/-- Run a sequence of vote submissions at a fixed time, collecting replies. -/
def runVotes (s : Server) (now : Nat) : List (String × String) → Server × List Reply
  | [] => (s, [])
  | (id, op) :: rest =>
      let st := processVote s now id op
      let r := runVotes st.server now rest
      (r.1, st.reply :: r.2)

/-- Number of accepted votes for a given option among a list of replies. -/
def countAccepted (rs : List Reply) (o : String) : Nat :=
  (rs.filter fun r => r = Reply.ok o).length

/-- The spec's scenario, after registration: options A, B, C; clients x1, x2,
x3 connected; round not yet started. -/
def scenarioRegistered : Server :=
  (registerClient
    (registerClient
      (registerClient (NewServer true ["A", "B", "C"]) "x1" 1).1 "x2" 2).1 "x3" 3).1

/-- The spec's scenario after `StartVoting 60` at time 0. -/
def scenarioStarted : Server := (StartVoting scenarioRegistered 0 60).server

/-- The spec's scenario after x1 votes A, x2 votes A, x3 votes B at time 10. -/
def scenarioVoted : Server :=
  (runVotes scenarioStarted 10 [("x1", "A"), ("x2", "A"), ("x3", "B")]).1

/-- An async-mode server with a single registered client that has voted:
the smallest state exercising a worker fan-out. -/
def asyncOneVoter : Server :=
  { clients := [("x1", 7)], votes := [("x1", "A")], voteCounts := [("A", 1)],
    options := ["A"], useAsyncBroadcast := true, broadcastChan := [],
    votingState := .active, votingDeadline := 60 }

/-- A server whose round has ended after x1 voted A. -/
def endedWithVote : Server :=
  { clients := [("x1", 7)], votes := [("x1", "A")], voteCounts := [("A", 1), ("B", 0)],
    options := ["A", "B"], useAsyncBroadcast := true, broadcastChan := [],
    votingState := .ended, votingDeadline := 60 }

/-- An active-round server in which x1 has already voted A. -/
def activeWithVote : Server :=
  { clients := [("x1", 7)], votes := [("x1", "A")], voteCounts := [("A", 1), ("B", 0)],
    options := ["A", "B"], useAsyncBroadcast := true, broadcastChan := [],
    votingState := .active, votingDeadline := 60 }

/-- An active-round server whose deadline (5) has already passed. -/
def expiredActive : Server :=
  { clients := [("x1", 7)], votes := [], voteCounts := [("A", 0), ("B", 0)],
    options := ["A", "B"], useAsyncBroadcast := true, broadcastChan := [],
    votingState := .active, votingDeadline := 5 }

/-! ### Association-list lemmas -/

theorem alGet_alSet_self {α : Type} (m : List (String × α)) (k : String) (v : α) :
    alGet (alSet m k v) k = some v := by
  induction m with
  | nil => simp [alSet, alGet]
  | cons kv rest ih =>
      obtain ⟨k', v'⟩ := kv
      by_cases h : k' = k
      · simp [alSet, alGet, h]
      · simp [alSet, alGet, h, ih]

theorem alGet_alSet_ne {α : Type} (m : List (String × α)) (k k' : String) (v : α)
    (h : k' ≠ k) : alGet (alSet m k v) k' = alGet m k' := by
  induction m with
  | nil => simp [alSet, alGet, Ne.symm h]
  | cons kv rest ih =>
      obtain ⟨k₀, v₀⟩ := kv
      by_cases hk : k₀ = k
      · subst hk
        simp [alSet, alGet, Ne.symm h]
      · by_cases hk' : k₀ = k'
        · simp [alSet, alGet, hk, hk', h]
        · simp [alSet, alGet, hk, hk', ih]

theorem alGet0_bump_self (m : List (String × Nat)) (k : String) :
    alGet0 (bump m k) k = alGet0 m k + 1 := by
  simp [bump, alGet0, alGet_alSet_self]

theorem alGet0_bump_ne (m : List (String × Nat)) (k o : String) (h : o ≠ k) :
    alGet0 (bump m k) o = alGet0 m o := by
  simp [bump, alGet0, alGet_alSet_ne m k o _ h]

theorem alKeys_alSet {α : Type} (m : List (String × α)) (k : String) (v : α) :
    alKeys (alSet m k v) = if k ∈ alKeys m then alKeys m else alKeys m ++ [k] := by
  induction m with
  | nil => simp [alSet, alKeys]
  | cons kv rest ih =>
      obtain ⟨k₀, v₀⟩ := kv
      by_cases hk : k₀ = k
      · subst hk
        simp [alSet, alKeys]
      · have hset : alSet ((k₀, v₀) :: rest) k v = (k₀, v₀) :: alSet rest k v := by
          simp [alSet, hk]
        rw [hset]
        show k₀ :: alKeys (alSet rest k v) = _
        rw [ih]
        by_cases hmem : k ∈ alKeys rest
        · have hm2 : k ∈ alKeys ((k₀, v₀) :: rest) :=
            show k ∈ k₀ :: alKeys rest from List.mem_cons_of_mem _ hmem
          rw [if_pos hmem, if_pos hm2]
          rfl
        · have hm2 : k ∉ alKeys ((k₀, v₀) :: rest) := by
            intro hc
            rcases List.mem_cons.mp (show k ∈ k₀ :: alKeys rest from hc) with h1 | h1
            · exact hk h1.symm
            · exact hmem h1
          rw [if_neg hmem, if_neg hm2]
          rfl

theorem nodup_alKeys_alSet {α : Type} (m : List (String × α)) (k : String) (v : α)
    (h : (alKeys m).Nodup) : (alKeys (alSet m k v)).Nodup := by
  rw [alKeys_alSet]
  by_cases hmem : k ∈ alKeys m
  · simpa [hmem] using h
  · simp only [hmem, if_false]
    refine List.Nodup.append h (List.nodup_singleton k) ?_
    simpa [List.disjoint_singleton] using hmem

theorem alGet_none_of_not_mem_alKeys {α : Type} (m : List (String × α)) (k : String)
    (h : k ∉ alKeys m) : alGet m k = none := by
  induction m with
  | nil => rfl
  | cons kv rest ih =>
      obtain ⟨k₀, v₀⟩ := kv
      have h1 : ¬k₀ = k := by
        intro hk
        refine h (show k ∈ k₀ :: alKeys rest by rw [hk]; exact List.mem_cons_self _ _)
      have h2 : k ∉ alKeys rest := by
        intro hk
        exact h (show k ∈ k₀ :: alKeys rest from List.mem_cons_of_mem _ hk)
      simp [alGet, h1, ih h2]

theorem foldl_alSet_get (l : List (String × Nat)) :
    ∀ (acc : List (String × Nat)) (k : String), (alKeys l).Nodup →
      alGet (l.foldl (fun a kv => alSet a kv.1 kv.2) acc) k
        = if (alGet l k).isSome then alGet l k else alGet acc k := by
  induction l with
  | nil => intro acc k _; simp [alGet]
  | cons kv rest ih =>
      intro acc k h
      obtain ⟨k₀, v₀⟩ := kv
      have h' : (k₀ :: alKeys rest).Nodup := h
      have hnm : k₀ ∉ alKeys rest := (List.nodup_cons.mp h').1
      have hnd : (alKeys rest).Nodup := (List.nodup_cons.mp h').2
      show alGet (rest.foldl (fun a kv => alSet a kv.1 kv.2) (alSet acc k₀ v₀)) k = _
      rw [ih (alSet acc k₀ v₀) k hnd]
      by_cases hkk : k₀ = k
      · subst hkk
        have hz : alGet rest k₀ = none := alGet_none_of_not_mem_alKeys rest k₀ hnm
        simp [alGet, hz, alGet_alSet_self]
      · simp [alGet, hkk, alGet_alSet_ne acc k₀ k v₀ (Ne.symm hkk)]

theorem alGet_copyCounts (m : List (String × Nat)) (h : (alKeys m).Nodup) (k : String) :
    alGet (copyCounts m) k = alGet m k := by
  unfold copyCounts
  rw [foldl_alSet_get m [] k h]
  cases hg : alGet m k <;> simp [alGet, hg]

theorem withDepth_sends_append (cs : List ((String × Nat) × BMsg)) (d : Nat) :
    withDepth d ((cs.map fun p => Ev.send p.1 p.2) ++ [Ev.lockRelease])
      = (cs.map fun p => (Ev.send p.1 p.2, d)) ++ [(Ev.lockRelease, d - 1)] := by
  induction cs with
  | nil => simp [withDepth]
  | cons c rest ih => simp [withDepth, ih]

theorem processVote_counts_step (s : Server) (now : Nat) (id o k : String) :
    alGet0 (processVote s now id o).server.voteCounts k
      = alGet0 s.voteCounts k
        + (if (processVote s now id o).reply = Reply.ok k then 1 else 0) := by
  by_cases hk : o = k
  · subst hk
    simp only [processVote]
    split_ifs <;> simp_all [alGet0_bump_self]
  · simp only [processVote]
    split_ifs <;> simp_all [alGet0_bump_ne s.voteCounts o k fun hh => hk hh.symm]

theorem countAccepted_cons (r : Reply) (rs : List Reply) (o : String) :
    countAccepted (r :: rs) o = (if r = Reply.ok o then 1 else 0) + countAccepted rs o := by
  by_cases h : r = Reply.ok o <;>
    simp [countAccepted, h, List.filter, Nat.add_comm]

/-! ### Claim theorems -/

/-- C1: `processVote` checks its preconditions in the spec's order with the
first failure determining the result — (1) phase Active and deadline not
elapsed, else RoundNotActive (phase NotStarted or Ended) or RoundExpired;
(2) no existing vote record, else DuplicateVote; (3) option in the configured
set, else InvalidOption — and on success stores the vote record, increments
that option's tally by one, and (async mode) hands an immutable copy of the
tally to the dispatch channel, or (sync mode) fans the updated tally out via
`broadcastLocked`. -/
theorem processVote_refines_recordVote_spec (s : Server) (now : Nat) (id o : String) :
    (processVote s now id o).reply.reason = recordVoteSpecReason s now id o
    ∧ (processVote s now id o).server.votes
        = (if recordVoteSpecReason s now id o = Reason.accepted then alSet s.votes id o
           else s.votes)
    ∧ (processVote s now id o).server.voteCounts
        = (if recordVoteSpecReason s now id o = Reason.accepted then bump s.voteCounts o
           else s.voteCounts)
    ∧ (recordVoteSpecReason s now id o = Reason.accepted →
        alGet0 (processVote s now id o).server.voteCounts o = alGet0 s.voteCounts o + 1)
    ∧ (recordVoteSpecReason s now id o = Reason.accepted → s.useAsyncBroadcast = true →
        (processVote s now id o).server.broadcastChan
          = s.broadcastChan ++ [copyCounts (bump s.voteCounts o)])
    ∧ (recordVoteSpecReason s now id o = Reason.accepted → s.useAsyncBroadcast = false →
        (processVote s now id o).sends = broadcastLocked (processVote s now id o).server) := by
  cases hvs : s.votingState <;>
    simp only [processVote, recordVoteSpecReason, hvs] <;>
    split_ifs <;>
    simp_all [Reply.reason, alGet0_bump_self]

/-- C1 witness: the refinement theorem applied to the spec scenario's first
accepted vote. -/
theorem processVote_refines_recordVote_spec_witness :
    recordVoteSpecReason scenarioStarted 10 "x1" "A" = Reason.accepted
    ∧ alGet0 (processVote scenarioStarted 10 "x1" "A").server.voteCounts "A"
        = alGet0 scenarioStarted.voteCounts "A" + 1
    ∧ (processVote scenarioStarted 10 "x1" "A").server.broadcastChan
        = scenarioStarted.broadcastChan ++ [copyCounts (bump scenarioStarted.voteCounts "A")] :=
  ⟨by decide,
   (processVote_refines_recordVote_spec scenarioStarted 10 "x1" "A").2.2.2.1 (by decide),
   (processVote_refines_recordVote_spec scenarioStarted 10 "x1" "A").2.2.2.2.1
     (by decide) (by decide)⟩

/-- C2: for every sequence of vote submissions, the final tally of each
option equals its initial tally plus the number of accepted votes for that
option (no increment lost); in the spec's scenario with options A, B, C and
an active round, x1→A, x2→A, x3→B yields tally A:2, B:1, C:0, and a second
vote from x1 is rejected as a duplicate leaving the tally unchanged. -/
theorem tally_equals_accepted_votes :
    (∀ (s : Server) (now : Nat) (subs : List (String × String)) (o : String),
      alGet0 (runVotes s now subs).1.voteCounts o
        = alGet0 s.voteCounts o + countAccepted (runVotes s now subs).2 o)
    ∧ alGet0 scenarioVoted.voteCounts "A" = 2
    ∧ alGet0 scenarioVoted.voteCounts "B" = 1
    ∧ alGet0 scenarioVoted.voteCounts "C" = 0
    ∧ (processVote scenarioVoted 10 "x1" "A").reply = Reply.errDuplicate
    ∧ (processVote scenarioVoted 10 "x1" "A").server.voteCounts = scenarioVoted.voteCounts := by
  refine ⟨?_, by decide, by decide, by decide, by decide, by decide⟩
  intro s now subs o
  induction subs generalizing s with
  | nil => simp [runVotes, countAccepted]
  | cons sub rest ih =>
      obtain ⟨id, op⟩ := sub
      simp only [runVotes]
      rw [countAccepted_cons, ih (processVote s now id op).server,
        processVote_counts_step, Nat.add_assoc]

/-- C3: under both dispatch strategies a per-vote UPDATE is sent only to
clients holding a vote record — an identity without a vote record receives no
UPDATE from the sync fan-out nor from any worker pass — while the
round-started and round-ended announcements go to every registered client
unconditionally. -/
theorem update_broadcasts_gated_by_vote (s : Server) (u : List (String × Nat))
    (id : String) (hnv : alGet s.votes id = none) :
    (∀ p ∈ broadcastWorkerSends s u, p.1.1 ≠ id)
    ∧ (∀ p ∈ broadcastLocked s, p.1.1 ≠ id)
    ∧ (∀ now d, s.votingState = VotingState.notStarted →
        (StartVoting s now d).announced
          = s.clients.map fun c => (c, BMsg.iniciada d s.options))
    ∧ (s.votingState = VotingState.active →
        (endVoting s).announced
          = s.clients.map fun c => (c, BMsg.encerrada s.voteCounts)) := by
  refine ⟨?_, ?_, ?_, ?_⟩
  · intro p hp
    rcases List.mem_map.mp hp with ⟨c, hc, rfl⟩
    rcases List.mem_filter.mp hc with ⟨_, hvoted⟩
    intro hcid
    rw [hcid] at hvoted
    simp [hnv] at hvoted
  · intro p hp
    rcases List.mem_map.mp hp with ⟨c, hc, rfl⟩
    rcases List.mem_filter.mp hc with ⟨_, hvoted⟩
    intro hcid
    rw [hcid] at hvoted
    simp [hnv] at hvoted
  · intro now d hns
    simp [StartVoting, hns]
  · intro ha
    simp [endVoting, ha]

/-- C3 witness: in the registered-but-unvoted spec scenario, the
round-started announcement reaches all three registered clients. -/
theorem update_broadcasts_gated_by_vote_witness :
    (StartVoting scenarioRegistered 0 60).announced
      = scenarioRegistered.clients.map fun c => (c, BMsg.iniciada 60 scenarioRegistered.options) :=
  (update_broadcasts_gated_by_vote scenarioRegistered [] "x2" (by decide)).2.2.1 0 60 (by decide)

/-- C4 counterexample: with one registered voter, the decoupled-async worker's
per-client send executes at lock depth 1, inside the mutex shared with vote
processing — not outside every such lock as claimed. -/
theorem worker_sends_under_shared_lock_cx :
    ¬ sendsOutsideLock (broadcastWorkerTrace asyncOneVoter [("A", 1)]) := by decide

/-- C4 amended: in the decoupled-async strategy the worker does take the
fan-out out of the vote-processing call itself (an accepted vote in async
mode performs no broadcast writes, only the non-blocking channel hand-off),
but the worker then holds the shared registry mutex across every per-client
send: each send in a dispatch pass executes at lock depth 1, so a blocked
sink does delay operations needing that mutex. -/
theorem worker_sends_under_shared_lock :
    (∀ (s : Server) (u : List (String × Nat)),
      ∀ p ∈ withDepth 0 (broadcastWorkerTrace s u), p.1.isSend = true → p.2 = 1)
    ∧ (∀ (s : Server) (now : Nat) (id o : String),
        s.useAsyncBroadcast = true → (processVote s now id o).sends = []) := by
  constructor
  · intro s u p hp hsend
    have hh : withDepth 0 (broadcastWorkerTrace s u)
        = (Ev.lockAcquire, 0)
          :: (((broadcastWorkerSends s u).map fun q => (Ev.send q.1 q.2, 1))
              ++ [(Ev.lockRelease, 0)]) := by
      have h0 : withDepth 0 (broadcastWorkerTrace s u)
          = (Ev.lockAcquire, 0)
            :: withDepth 1
                (((broadcastWorkerSends s u).map fun q => Ev.send q.1 q.2)
                  ++ [Ev.lockRelease]) := rfl
      rw [h0, withDepth_sends_append]
    rw [hh] at hp
    rcases List.mem_cons.mp hp with rfl | h
    · simp [Ev.isSend] at hsend
    · rcases List.mem_append.mp h with h2 | h2
      · rcases List.mem_map.mp h2 with ⟨q, _, rfl⟩
        rfl
      · simp only [List.mem_singleton] at h2
        subst h2
        simp [Ev.isSend] at hsend
  · intro s now id o hasync
    simp only [processVote]
    split_ifs <;> simp_all

/-- C4 witness: the amended theorem applied to the one-voter server: the
worker's send to x1 carries depth 1. -/
theorem worker_sends_under_shared_lock_witness :
    (Ev.send ("x1", 7) (BMsg.update [("A", 1)]), 1).2 = 1
    ∧ (processVote asyncOneVoter 10 "x2" "A").sends = [] :=
  ⟨worker_sends_under_shared_lock.1 asyncOneVoter [("A", 1)]
     (Ev.send ("x1", 7) (BMsg.update [("A", 1)]), 1) (by decide) (by decide),
   worker_sends_under_shared_lock.2 asyncOneVoter 10 "x2" "A" (by decide)⟩

/-- C5 counterexample: after the round has ended, a repeated submission by a
voted identity is rejected with the round-ended error (spec reason
RoundNotActive), not with DuplicateVote as the claim states for every later
submission. -/
theorem vote_record_write_once_cx :
    alGet endedWithVote.votes "x1" = some "A"
    ∧ (processVote endedWithVote 10 "x1" "B").reply.reason ≠ Reason.duplicateVote
    ∧ (processVote endedWithVote 10 "x1" "B").reply ≠ Reply.errDuplicate := by decide

/-- C5 amended: an identity's vote record is written at most once — once
recorded, every later submission by that identity is rejected and leaves the
recorded option unchanged, and when the round is Active with the deadline not
elapsed the rejection reason is DuplicateVote (otherwise the phase/deadline
check fires first with its own reason); no other operation alters the vote
ledger. -/
theorem vote_record_write_once (s : Server) (now : Nat) (id o o' : String)
    (hv : alGet s.votes id = some o) :
    alGet (processVote s now id o').server.votes id = some o
    ∧ (processVote s now id o').reply.reason ≠ Reason.accepted
    ∧ (s.votingState = VotingState.active → ¬ s.votingDeadline < now →
        (processVote s now id o').reply = Reply.errDuplicate)
    ∧ (∀ n d, (StartVoting s n d).server.votes = s.votes)
    ∧ (endVoting s).server.votes = s.votes
    ∧ (∀ c n, (registerClient s c n).1.votes = s.votes)
    ∧ (∀ c, (unregisterClient s c).votes = s.votes) := by
  refine ⟨?_, ?_, ?_, ?_, ?_, ?_, ?_⟩
  · simp only [processVote]
    split_ifs <;> simp_all
  · simp only [processVote]
    split_ifs <;> simp_all [Reply.reason]
  · intro hA hD
    simp [processVote, hA, hD, hv]
  · intro n d
    simp only [StartVoting]
    split_ifs <;> rfl
  · simp only [endVoting]
    split_ifs <;> rfl
  · intro c n
    simp only [registerClient]
    split_ifs <;> rfl
  · intro c
    rfl

/-- C5 witness: the amended theorem applied to an active round where x1
already voted A: a second vote is rejected with DuplicateVote and the record
still reads A. -/
theorem vote_record_write_once_witness :
    alGet (processVote activeWithVote 10 "x1" "B").server.votes "x1" = some "A"
    ∧ (processVote activeWithVote 10 "x1" "B").reply = Reply.errDuplicate :=
  ⟨(vote_record_write_once activeWithVote 10 "x1" "A" "B" (by decide)).1,
   (vote_record_write_once activeWithVote 10 "x1" "A" "B" (by decide)).2.2.1
     (by decide) (by decide)⟩

/-- C6: the round phase only moves forward along
NotStarted → Active → Ended: `StartVoting` fires only from NotStarted and is
otherwise a reported no-op leaving all state unchanged, `endVoting` fires
only from Active and is otherwise a no-op, no other operation changes the
phase, and Ended is terminal. -/
theorem round_phase_monotonic (s : Server) (now d : Nat) :
    (s.votingState ≠ VotingState.notStarted →
        StartVoting s now d
          = { server := s, announced := [], fired := false, timerScheduled := false })
    ∧ (s.votingState ≠ VotingState.active →
        endVoting s
          = { server := s, announced := [], fired := false, timerScheduled := false })
    ∧ ((StartVoting s now d).server.votingState
        = if s.votingState = VotingState.notStarted then VotingState.active
          else s.votingState)
    ∧ ((endVoting s).server.votingState
        = if s.votingState = VotingState.active then VotingState.ended else s.votingState)
    ∧ s.votingState.rank ≤ (StartVoting s now d).server.votingState.rank
    ∧ s.votingState.rank ≤ (endVoting s).server.votingState.rank
    ∧ (∀ id o, (processVote s now id o).server.votingState = s.votingState)
    ∧ (∀ id c, (registerClient s id c).1.votingState = s.votingState)
    ∧ (∀ id, (unregisterClient s id).votingState = s.votingState)
    ∧ ((broadcastWorkerStep s).1.votingState = s.votingState)
    ∧ (s.votingState = VotingState.ended →
        (StartVoting s now d).server.votingState = VotingState.ended
        ∧ (endVoting s).server.votingState = VotingState.ended
        ∧ ∀ id o, (processVote s now id o).server.votingState = VotingState.ended) := by
  refine ⟨?_, ?_, ?_, ?_, ?_, ?_, ?_, ?_, ?_, ?_, ?_⟩
  · intro h
    simp [StartVoting, h]
  · intro h
    simp [endVoting, h]
  · cases hvs : s.votingState <;> simp [StartVoting, hvs]
  · cases hvs : s.votingState <;> simp [endVoting, hvs]
  · cases hvs : s.votingState <;> simp [StartVoting, hvs, VotingState.rank]
  · cases hvs : s.votingState <;> simp [endVoting, hvs, VotingState.rank]
  · intro id o
    simp only [processVote]
    split_ifs <;> rfl
  · intro id c
    simp only [registerClient]
    split_ifs <;> rfl
  · intro id
    rfl
  · cases hc : s.broadcastChan <;> simp [broadcastWorkerStep, hc]
  · intro h
    refine ⟨by simp [StartVoting, h], by simp [endVoting, h], ?_⟩
    intro id o
    simp only [processVote]
    split_ifs <;> simp [h]

/-- C6 witness: from an ended round, starting and ending are no-ops and a
vote submission leaves the phase Ended. -/
theorem round_phase_monotonic_witness :
    StartVoting endedWithVote 0 60
      = { server := endedWithVote, announced := [], fired := false, timerScheduled := false }
    ∧ (processVote endedWithVote 0 "x1" "A").server.votingState = VotingState.ended :=
  ⟨(round_phase_monotonic endedWithVote 0 60).1 (by decide),
   ((round_phase_monotonic endedWithVote 0 60).2.2.2.2.2.2.2.2.2.2 (by decide)).2.2 "x1" "A"⟩

/-- C7: every rejected vote submission is atomic — whatever the rejection
reason, the entire server state (vote ledger, tally, registry, channel,
phase) is unchanged and no broadcast write is performed. -/
theorem rejected_vote_frame (s : Server) (now : Nat) (id o : String)
    (h : (processVote s now id o).reply.reason ≠ Reason.accepted) :
    (processVote s now id o).server = s ∧ (processVote s now id o).sends = [] := by
  revert h
  simp only [processVote]
  split_ifs <;> intro h <;> simp_all [Reply.reason]

/-- C7 witness: the rejected duplicate vote of the ended-round server leaves
the state untouched. -/
theorem rejected_vote_frame_witness :
    (processVote endedWithVote 10 "x1" "B").server = endedWithVote
    ∧ (processVote endedWithVote 10 "x1" "B").sends = [] :=
  rejected_vote_frame endedWithVote 10 "x1" "B" (by decide)

/-- C8: a vote submitted while the phase is Active but past the deadline is
rejected with RoundExpired, the rejection itself leaves the state unchanged
(still Active: the end transition is deferred outside the rejection's
critical section via the `triggersEnd` flag modelling `go s.endVoting()`),
and the deferred `endVoting` step then moves the phase to Ended. -/
theorem expired_vote_rejected_then_ended (s : Server) (now : Nat) (id o : String)
    (hA : s.votingState = VotingState.active) (hD : s.votingDeadline < now) :
    (processVote s now id o).reply = Reply.errExpired
    ∧ (processVote s now id o).triggersEnd = true
    ∧ (processVote s now id o).server = s
    ∧ (processVote s now id o).server.votingState = VotingState.active
    ∧ (endVoting (processVote s now id o).server).fired = true
    ∧ (endVoting (processVote s now id o).server).server.votingState = VotingState.ended := by
  have hstep : processVote s now id o
      = { server := s, replyTo := alGet s.clients id, reply := .errExpired,
          triggersEnd := true, sends := [] } := by
    simp [processVote, hA, hD]
  rw [hstep]
  simp [endVoting, hA]

/-- C8 witness: applied to an active server whose deadline 5 has passed at
time 10. -/
theorem expired_vote_rejected_then_ended_witness :
    (processVote expiredActive 10 "x1" "A").reply = Reply.errExpired
    ∧ (endVoting (processVote expiredActive 10 "x1" "A").server).server.votingState
        = VotingState.ended :=
  ⟨(expired_vote_rejected_then_ended expiredActive 10 "x1" "A" (by decide) (by decide)).1,
   (expired_vote_rejected_then_ended expiredActive 10 "x1" "A"
      (by decide) (by decide)).2.2.2.2.2⟩

/-- C9: each accepted async-mode vote appends exactly one snapshot to the
dispatch channel — the entry-by-entry copy of the tally at the instant the
vote was applied (the copy agrees with the live tally pointwise) — rejected
votes append none; each accepted sync-mode vote fans out one payload equal to
the instant tally; and later operations never alter queued snapshots: further
votes only append (existing queue positions unchanged), the other operations
leave the queue as is, and a dispatch pass delivers the dequeued snapshot
value verbatim. -/
theorem snapshot_per_accepted_vote (s : Server) (now : Nat) (id o : String) :
    (s.useAsyncBroadcast = true → (processVote s now id o).reply.reason = Reason.accepted →
        (processVote s now id o).server.broadcastChan
          = s.broadcastChan ++ [copyCounts (processVote s now id o).server.voteCounts])
    ∧ ((processVote s now id o).reply.reason ≠ Reason.accepted →
        (processVote s now id o).server.broadcastChan = s.broadcastChan)
    ∧ ((alKeys s.voteCounts).Nodup → ∀ k,
        alGet (copyCounts (bump s.voteCounts o)) k = alGet (bump s.voteCounts o) k)
    ∧ (s.useAsyncBroadcast = false →
        ∀ p ∈ (processVote s now id o).sends,
          p.2 = BMsg.update (processVote s now id o).server.voteCounts)
    ∧ (∀ now' id' o',
        (processVote s now' id' o').server.broadcastChan.take s.broadcastChan.length
          = s.broadcastChan)
    ∧ (∀ n d, (StartVoting s n d).server.broadcastChan = s.broadcastChan)
    ∧ ((endVoting s).server.broadcastChan = s.broadcastChan)
    ∧ (∀ c n, (registerClient s c n).1.broadcastChan = s.broadcastChan)
    ∧ (∀ c, (unregisterClient s c).broadcastChan = s.broadcastChan)
    ∧ (∀ u rest, s.broadcastChan = u :: rest →
        ∀ p ∈ (broadcastWorkerStep s).2, p.2 = BMsg.update u) := by
  refine ⟨?_, ?_, ?_, ?_, ?_, ?_, ?_, ?_, ?_, ?_⟩
  · simp only [processVote]
    split_ifs <;> intro ha hr <;> simp_all [Reply.reason]
  · simp only [processVote]
    split_ifs <;> intro hr <;> simp_all [Reply.reason]
  · intro h k
    exact alGet_copyCounts (bump s.voteCounts o) (nodup_alKeys_alSet s.voteCounts o _ h) k
  · intro hs p hp
    revert hp
    simp only [processVote]
    split_ifs <;> intro hp <;> simp_all
    rcases List.mem_map.mp hp with ⟨c, _, rfl⟩
    rfl
  · intro now' id' o'
    simp only [processVote]
    split_ifs <;> simp [List.take_left]
  · intro n d
    simp only [StartVoting]
    split_ifs <;> rfl
  · simp only [endVoting]
    split_ifs <;> rfl
  · intro c n
    simp only [registerClient]
    split_ifs <;> rfl
  · intro c
    rfl
  · intro u rest hc p hp
    have hsteps : (broadcastWorkerStep s).2
        = broadcastWorkerSends { s with broadcastChan := rest } u := by
      simp [broadcastWorkerStep, hc]
    rw [hsteps] at hp
    rcases List.mem_map.mp hp with ⟨c, _, rfl⟩
    rfl

/-- C9 witness: the second scenario vote appends exactly the copied instant
tally, and the copy agrees with the live tally at B. -/
theorem snapshot_per_accepted_vote_witness :
    (processVote scenarioStarted 10 "x2" "B").server.broadcastChan
      = scenarioStarted.broadcastChan
        ++ [copyCounts (processVote scenarioStarted 10 "x2" "B").server.voteCounts]
    ∧ alGet (copyCounts (bump scenarioStarted.voteCounts "B")) "B"
        = alGet (bump scenarioStarted.voteCounts "B") "B" :=
  ⟨(snapshot_per_accepted_vote scenarioStarted 10 "x2" "B").1 (by decide) (by decide),
   (snapshot_per_accepted_vote scenarioStarted 10 "x2" "B").2.2.1 (by decide) "B"⟩

/-- C10: `processVote` looks the submitting identity up in the client
registry without a presence check, and every response path writes to exactly
that looked-up sink; for an identity with no registry entry the lookup is
`none` (a nil `net.Conn`), so the response write has no valid target — the
operation is only write-safe under the precondition that the identity has a
live session. -/
theorem vote_reply_targets_registry_lookup (s : Server) (now : Nat) (id o : String) :
    (processVote s now id o).replyTo = alGet s.clients id
    ∧ (alGet s.clients id = none → (processVote s now id o).replyTo = none) := by
  have h1 : (processVote s now id o).replyTo = alGet s.clients id := by
    simp only [processVote]
    split_ifs <;> rfl
  exact ⟨h1, fun hn => by rw [h1, hn]⟩

/-- C10 witness: an unregistered identity's submission targets a nil sink. -/
theorem vote_reply_targets_registry_lookup_witness :
    (processVote endedWithVote 10 "ghost" "A").replyTo = none :=
  (vote_reply_targets_registry_lookup endedWithVote 10 "ghost" "A").2 (by decide)

end TcpVote
